import Mathlib

/-!
Verification development for the go-quantize median-cut color quantizer.

The definitions below are a shallow embedding of the Go sources:
  * `mediancut.go` (package root): `colorPriority`, `bucketize`, `palettize`,
    `quantizeSlice`, `buildBucketMultiple`, `bucketPool.getBucket`,
    `Quantize` / `QuantizeMultiple`;
  * `bucket.go`: `gt`, `partition`, `mean`, `constraint`, `span`.

Machine integers are modelled as `Nat` with explicit `% 2^w` where Go's
fixed-width arithmetic can wrap (`uint32` weight accumulation, `uint8`
channel spans, `uint8` truncation of means).  Go run-time panics
(index out of range, division by zero, `make` with negative capacity)
are modelled by `Option`: a panicking execution returns `none`.
Loops whose termination is not structural carry explicit fuel; a result
of `none` for every fuel models a non-terminating execution.

Pixel sources are modelled through the pixel-access interface the code
consumes (integer bounds plus a color-at-coordinate accessor yielding
8-bit R, G, B, A); the `image.YCbCr` fast paths in `colorAt` and in the
compaction step of `buildBucketMultiple` are performance specializations
of that same interface and are not modelled separately.
-/

namespace GoQuantize

/-- 8-bit RGBA color (Go `color.RGBA`). -/
structure RGBA where
  r : Nat
  g : Nat
  b : Nat
  a : Nat
deriving DecidableEq, Repr

/-- The zero `color.RGBA`. -/
def RGBA.zero : RGBA := ⟨0, 0, 0, 0⟩

/-- Go `colorPriority`: a weight (`p`, a `uint32`) plus a `color.RGBA`. -/
structure colorPriority where
  p : Nat
  rgba : RGBA
deriving DecidableEq, Repr

/-- The zero `colorPriority` (Go zero value). -/
def colorPriority.zero : colorPriority := ⟨0, RGBA.zero⟩

/-- Go `colorBucket`: a slice of `colorPriority`. -/
abbrev colorBucket := List colorPriority

/-- Go `colorAxis`. -/
inductive colorAxis where
  | red
  | green
  | blue
deriving DecidableEq, Repr

open colorAxis

/-- Go `gt` from bucket.go: is `c` greater than `other` on the given channel. -/
def gt (c : Nat) (other : RGBA) (sp : colorAxis) : Bool :=
  match sp with
  | red => c > other.r
  | green => c > other.g
  | blue => c > other.b

/-- Go `constraint` from bucket.go: running min/max and a 256-bin weighted
histogram for one channel.  The `vals` array is modelled as a function. -/
structure constraint where
  min : Nat
  max : Nat
  vals : Nat → Nat

/-- Go `(*constraint).update`. -/
def constraint.update (c : constraint) (index : Nat) (p : Nat) : constraint :=
  { min := if index < c.min then index else c.min
    max := if index > c.max then index else c.max
    vals := fun j => if j = index then c.vals j + p else c.vals j }

/-- Go `(*constraint).span`: `max - min` in `uint8` arithmetic (wraps). -/
def constraint.spanWidth (c : constraint) : Nat :=
  (c.max + 256 - c.min) % 256

/-- Initial per-channel `constraint` of `colorBucket.span`: Go zero value
with `min` set to 255. -/
def constraint.init : constraint := { min := 255, max := 0, vals := fun _ => 0 }

/-- The channel-statistics fold at the top of `colorBucket.span`: builds the
three per-channel constraints and the total weight, scanning left to right. -/
def spanFold (cb : colorBucket) : constraint × constraint × constraint × Nat :=
  cb.foldl
    (fun acc c =>
      ⟨acc.1.update c.rgba.r c.p,
       acc.2.1.update c.rgba.g c.p,
       acc.2.2.1.update c.rgba.b c.p,
       acc.2.2.2 + c.p⟩)
    ⟨constraint.init, constraint.init, constraint.init, 0⟩

/-- The median-search loop at the end of `colorBucket.span`: walk the 256
histogram bins (`budget` counts the bins left before index 255, so the
scan starts as `medianScan vals p 255 0 0`) and return the break index.
When the Go `range` loop runs off the end without breaking, `i` is left
at 255, which the exhausted-budget equation also returns. -/
def medianScan (vals : Nat → Nat) (p : Nat) : Nat → Nat → Nat → Nat
  | 0, i, _ => i
  | budget + 1, i, counted =>
    if counted > p / 2 ∨ counted + vals i = p then i
    else medianScan vals p budget (i + 1) (counted + vals i)

/-- Go `colorBucket.span` from bucket.go: returns the split value (`uint8`)
and the chosen axis. -/
def span (cb : colorBucket) : Nat × colorAxis :=
  let st := spanFold cb
  let R := st.1
  let G := st.2.1
  let B := st.2.2.1
  let p := st.2.2.2
  let chosen : constraint × colorAxis :=
    if R.spanWidth > G.spanWidth ∧ R.spanWidth > B.spanWidth then (R, red)
    else if G.spanWidth > B.spanWidth then (G, green)
    else (B, blue)
  (medianScan chosen.1.vals p 255 0 0 % 256, chosen.2)

/-- The left scan of `colorBucket.partition`: advance `left` while the
element is below the pivot on the chosen axis.  `budget` counts the
entries left before the end of the slice (callers pass
`cb.length - i`), so the exhausted-budget `none` models running past the
end of the slice (a Go index-out-of-range panic). -/
def findLeft (cb : colorBucket) (mean : Nat) (sp : colorAxis) :
    Nat → Nat → Option Nat
  | 0, _ => none
  | budget + 1, i =>
    if gt mean (cb.getD i colorPriority.zero).rgba sp then
      findLeft cb mean sp budget (i + 1)
    else some i

/-- The right scan of `colorBucket.partition`: retreat `right` while the
element is not below the pivot.  `none` models running below index 0
(a Go index-out-of-range panic). -/
def findRight (cb : colorBucket) (mean : Nat) (sp : colorAxis) :
    Nat → Option Nat
  | 0 => if gt mean (cb.getD 0 colorPriority.zero).rgba sp then some 0 else none
  | j + 1 =>
    if gt mean (cb.getD (j + 1) colorPriority.zero).rgba sp then some (j + 1)
    else findRight cb mean sp j

/-- Swap two positions of a list (Go parallel assignment of slice entries). -/
def swapAt (cb : colorBucket) (i j : Nat) : colorBucket :=
  (cb.set i (cb.getD j colorPriority.zero)).set j (cb.getD i colorPriority.zero)

/-- The `for left < right` loop of `colorBucket.partition`.  Each iteration
runs both scans from the current positions and swaps the stopped entries
(also when the scans have crossed, exactly as the Go body does), then
re-checks the guard at the stopped positions. -/
def partitionLoop (mean : Nat) (sp : colorAxis) :
    Nat → colorBucket → Nat → Nat → Option (colorBucket × Nat)
  | fuel, cb, left, right =>
    if left < right then
      match fuel with
      | 0 => none
      | fuel' + 1 =>
        (findLeft cb mean sp (cb.length - left) left).bind fun l =>
        (findRight cb mean sp right).bind fun r =>
        partitionLoop mean sp fuel' (swapAt cb l r) l r
    else some (cb, left)

/-- Go `colorBucket.partition`: returns the two halves `cb[:left], cb[left:]`
after the in-place scan-and-swap loop; `none` models the loop's
out-of-range panics.  The fuel `cb.length + 2` dominates the iteration
count of every terminating Go execution (`left` strictly increases at each
iteration that recurses). -/
def partition (cb : colorBucket) : Option (colorBucket × colorBucket) :=
  let ms := span cb
  (partitionLoop ms.1 ms.2 (cb.length + 2) cb 0 (cb.length - 1)).map
    fun st => (st.1.take st.2, st.1.drop st.2)

/-- The queue loop of Go `bucketize`: grow the FIFO of buckets until it
reaches the target count or the number of colors.  Out of fuel (or the
unreachable dequeue from an empty queue, a Go index panic) is `none`. -/
def bucketizeLoop : Nat → List colorBucket → Nat → Nat → Option (List colorBucket)
  | 0, buckets, num, n =>
    if buckets.length < num ∧ buckets.length < n then none else some buckets
  | _ + 1, [], num, n =>
    if ([] : List colorBucket).length < num ∧ ([] : List colorBucket).length < n
      then none else some []
  | fuel + 1, bucket :: rest, num, n =>
    if (bucket :: rest).length < num ∧ (bucket :: rest).length < n then
      if bucket.length < 2 then
        bucketizeLoop fuel (rest ++ [bucket]) num n
      else if bucket.length = 2 then
        bucketizeLoop fuel (rest ++ [bucket.take 1, bucket.drop 1]) num n
      else
        (partition bucket).bind fun lr =>
          bucketizeLoop fuel (rest ++ [lr.1, lr.2]) num n
    else some (bucket :: rest)

/-- Fuel bound for `bucketizeLoop`, dominating the iteration count of every
terminating Go execution. -/
def bucketizeFuel (colors : colorBucket) (num : Int) : Nat :=
  (colors.length + num.toNat + 2) * (colors.length + 2)

/-- Go `bucketize` from mediancut.go.  `num` is a Go `int` and may be
negative (`quantizeSlice` can pass `-1`); in that case
`make([]colorBucket, 1, num*2)` panics, modelled by `none`. -/
def bucketize (colors : colorBucket) (num : Int) : Option (List colorBucket) :=
  if colors.length = 0 ∨ num = 0 then some []
  else if num < 0 then none
  else bucketizeLoop (bucketizeFuel colors num) [colors] num.toNat colors.length

/-- Go `AggregationType`. -/
inductive AggregationType where
  | Mode
  | Mean
deriving DecidableEq, Repr

/-- A pixel source as consumed by the quantizer: integer bounds plus a
color-at-coordinate accessor (Go `image.Image` through `Bounds` and
`colorAt`). -/
structure Img where
  minX : Int
  maxX : Int
  minY : Int
  maxY : Int
  pixel : Int → Int → RGBA

/-- Go `MedianCutQuantizer`.  The weighting function returns a `uint32`;
its value is reduced `% 2^32` at the call site to reflect that type. -/
structure MedianCutQuantizer where
  aggregation : AggregationType
  weighting : Option (Img → Int → Int → Nat)
  addTransparent : Bool

/-- Go `colorAt`: the pixel's channels as the bytes of a `color.RGBA`. -/
def colorAt (m : Img) (x y : Int) : RGBA :=
  let c := m.pixel x y
  ⟨c.r % 256, c.g % 256, c.b % 256, c.a % 256⟩

/-- Go `colorBucket.mean` from bucket.go: weighted per-channel average,
truncated to `uint8`, with alpha fixed at 255.  Go divides by the total
weight `p`; `p = 0` is an integer-divide-by-zero panic, modelled by
`none`. -/
def mean (cb : colorBucket) : Option RGBA :=
  let st := cb.foldl
    (fun acc c =>
      ⟨acc.1 + c.p,
       acc.2.1 + c.rgba.r * c.p,
       acc.2.2.1 + c.rgba.g * c.p,
       acc.2.2.2 + c.rgba.b * c.p⟩)
    ((0, 0, 0, 0) : Nat × Nat × Nat × Nat)
  if st.1 = 0 then none
  else some ⟨st.2.1 / st.1 % 256, st.2.2.1 / st.1 % 256, st.2.2.2 / st.1 % 256, 255⟩

/-- The `Mode` scan of `palettize`: highest-weight member, strict
comparison against the running best, which starts as the zero
`colorPriority`. -/
def modeBest (cb : colorBucket) : colorPriority :=
  cb.foldl (fun best c => if c.p > best.p then c else best) colorPriority.zero

/-- Go `palettize` from mediancut.go: append one reduced color per bucket. -/
def palettize (agg : AggregationType) (p : List RGBA) :
    List colorBucket → Option (List RGBA)
  | [] => some p
  | bucket :: rest =>
    match agg with
    | AggregationType.Mean =>
      (mean bucket).bind fun m => palettize agg (p ++ [m]) rest
    | AggregationType.Mode =>
      palettize agg (p ++ [(modeBest bucket).rgba]) rest

/-- The fully transparent `color.RGBA{0, 0, 0, 0}`. -/
def transparentRGBA : RGBA := ⟨0, 0, 0, 0⟩

/-- Does the palette contain an entry whose alpha is 0 (Go checks
`c.RGBA()` and tests `a == 0`)? -/
def hasTransparent (p : List RGBA) : Bool :=
  p.any fun c => c.a = 0

/-- Go `quantizeSlice` from mediancut.go.  `capTotal` is the Go `cap(p)`;
the palette `p` is its current contents (`len(p) ≤ cap(p)` in Go). -/
def quantizeSlice (q : MedianCutQuantizer) (capTotal : Nat) (p : List RGBA)
    (colors : colorBucket) : Option (List RGBA) :=
  let numColors0 : Int := (capTotal : Int) - p.length
  let addT := q.addTransparent && !hasTransparent p
  let numColors : Int := if addT then numColors0 - 1 else numColors0
  (bucketize colors numColors).bind fun buckets =>
  (palettize q.aggregation p buckets).map fun p2 =>
  if addT then p2 ++ [transparentRGBA] else p2

/-- The list of integers `lo, lo+1, …, hi-1` (a Go `for v := lo; v < hi; v++`
loop). -/
def intRange (lo hi : Int) : List Int :=
  (List.range (hi - lo).toNat).map fun i => lo + i

/-- The packed table index `int(c.R)<<16 | int(c.G)<<8 | int(c.B)`: with
byte-sized channels the ORs are exactly this sum. -/
def pack (c : RGBA) : Nat :=
  c.r * 65536 + c.g * 256 + c.b

/-- The open-addressing insertion loop of `buildBucketMultiple`: probe
`index % size`, stepping `index += 1 + i` with `i = 1, 2, 3, …`, until an
empty slot or a slot holding this exact color is found, then accumulate
in `uint32` arithmetic.  `none` for every fuel models a non-terminating
probe; `size = 0` would be a Go divide-by-zero panic (unreachable when a
pixel exists). -/
def probeInsert : Nat → List colorPriority → Nat → Nat → Nat → RGBA → Nat →
    Option (List colorPriority)
  | 0, _, _, _, _, _, _ => none
  | fuel + 1, table, size, index, i, c, priority =>
    if size = 0 then none
    else
      let slot := table.getD (index % size) colorPriority.zero
      if slot.p = 0 ∨ slot.rgba = c then
        some (table.set (index % size) ⟨(slot.p + priority) % 2 ^ 32, c⟩)
      else probeInsert fuel table size (index + 1 + i) (i + 1) c priority

/-- The per-image scan of `buildBucketMultiple`: iterate the image's own
bounds (y outer, x inner), skip zero-weight pixels, insert the rest. -/
def scanImage (fuel : Nat) (q : MedianCutQuantizer) (size : Nat) (m : Img)
    (table : List colorPriority) : Option (List colorPriority) :=
  (intRange m.minY m.maxY).foldlM
    (fun tab y =>
      (intRange m.minX m.maxX).foldlM
        (fun tab x =>
          let priority := match q.weighting with
            | none => 1
            | some w => w m x y % 2 ^ 32
          if priority ≠ 0 then
            probeInsert fuel tab size (pack (colorAt m x y)) 1 (colorAt m x y)
              priority
          else some tab)
        tab)
    table

/-- Go `buildBucketMultiple` from mediancut.go: bounding box over all
images starting from `math.MaxInt32` / 0, table of twice its area, scan
each image within its own bounds, then compact by dropping zero-weight
slots. -/
def buildBucketMultiple (fuel : Nat) (q : MedianCutQuantizer) (ms : List Img) :
    Option colorBucket :=
  if ms.length < 1 then some []
  else
    let leastX := ms.foldl (fun acc m => if m.minX < acc then m.minX else acc)
      2147483647
    let greatestX := ms.foldl (fun acc m => if m.maxX > acc then m.maxX else acc) 0
    let leastY := ms.foldl (fun acc m => if m.minY < acc then m.minY else acc)
      2147483647
    let greatestY := ms.foldl (fun acc m => if m.maxY > acc then m.maxY else acc) 0
    let sizeInt : Int := (greatestX - leastX) * (greatestY - leastY) * 2
    if sizeInt < 0 then none
    else
      let size := sizeInt.toNat
      let table := List.replicate size colorPriority.zero
      (ms.foldlM (fun tab m => scanImage fuel q size m tab) table).map
        fun tab => tab.filter fun s => s.p ≠ 0

/-- Go `QuantizeMultiple`: aggregate all images, then `quantizeSlice`. -/
def QuantizeMultiple (fuel : Nat) (q : MedianCutQuantizer) (capTotal : Nat)
    (p : List RGBA) (ms : List Img) : Option (List RGBA) :=
  (buildBucketMultiple fuel q ms).bind fun bucket =>
    quantizeSlice q capTotal p bucket

/-- Go `Quantize`: `QuantizeMultiple` on a single image. -/
def Quantize (fuel : Nat) (q : MedianCutQuantizer) (capTotal : Nat)
    (p : List RGBA) (m : Img) : Option (List RGBA) :=
  QuantizeMultiple fuel q capTotal p [m]

/-- Go `bucketPool` state: the mutex-guarded high-water mark `maxCap`.
The `sync.Pool` free list is external nondeterminism; a `Get` result is
passed in explicitly. -/
structure bucketPool where
  maxCap : Nat

/-- Go `(*bucketPool).getBucket`.  `got` is what `p.Pool.Get()` returned:
`none` for nil, or the backing array of a previously released buffer
(whose length is the Go `cap`).  Returns the buffer and the new pool
state. -/
def getBucket (pool : bucketPool) (got : Option (List colorPriority))
    (c : Nat) : colorBucket × bucketPool :=
  let m1 := if pool.maxCap > c then pool.maxCap * 99 / 100 else pool.maxCap
  let m2 := if m1 < c then c else m1
  match got with
  | none => ((List.replicate m2 colorPriority.zero).take c, ⟨m2⟩)
  | some backing =>
    if backing.length < c then
      ((List.replicate m2 colorPriority.zero).take c, ⟨m2⟩)
    else
      ((backing.take c).map fun _ => colorPriority.zero, ⟨m2⟩)

/-- Total weight of a list of weighted colors. -/
def sumP (cb : colorBucket) : Nat :=
  (cb.map colorPriority.p).sum

/-- The three per-channel span widths (`uint8` `max - min`) computed by
`colorBucket.span`, in R, G, B order. -/
def bucketSpans (cb : colorBucket) : Nat × Nat × Nat :=
  let st := spanFold cb
  (st.1.spanWidth, st.2.1.spanWidth, st.2.2.1.spanWidth)

/-- The axis `colorBucket.span` chooses. -/
def spanAxis (cb : colorBucket) : colorAxis :=
  (span cb).2

/-- Modelled from the spec (claim wording): the channel with the greatest
range, "ties broken by the fixed priority R > G > B (red wins any tie it
is part of, green beats blue on a green/blue tie)". -/
def specTieAxis (r g b : Nat) : colorAxis :=
  if r ≥ g ∧ r ≥ b then colorAxis.red
  else if g ≥ b then colorAxis.green
  else colorAxis.blue

/-- The rule the code actually implements for equal maxima: the last
channel (in R, G, B order) attaining the maximal span. -/
def lastMaxAxis (r g b : Nat) : colorAxis :=
  if b ≥ r ∧ b ≥ g then colorAxis.blue
  else if g ≥ r then colorAxis.green
  else colorAxis.red

/-- The span width of a given axis. -/
def axisSpanOf (cb : colorBucket) (ax : colorAxis) : Nat :=
  match ax with
  | colorAxis.red => (bucketSpans cb).1
  | colorAxis.green => (bucketSpans cb).2.1
  | colorAxis.blue => (bucketSpans cb).2.2

/-- An image with well-formed (non-inverted) bounds, as `image.Rectangle`
guarantees for Go images. -/
def Img.wf (m : Img) : Prop :=
  m.minX ≤ m.maxX ∧ m.minY ≤ m.maxY

/-- The total weight of all pixels of the scanned images, as the weighting
function reports it (zero-weight pixels contribute 0 either way). -/
def pixelWeightSum (q : MedianCutQuantizer) (ms : List Img) : Nat :=
  (ms.map fun m =>
    ((intRange m.minY m.maxY).map fun y =>
      ((intRange m.minX m.maxX).map fun x =>
        match q.weighting with
        | none => 1
        | some w => w m x y % 2 ^ 32).sum).sum).sum

/-- A quantizer with default weighting, `Mode` aggregation, no transparent
entry. -/
def qMode : MedianCutQuantizer :=
  ⟨AggregationType.Mode, none, false⟩

/-- A 1×1 image at the origin of constant color `c`. -/
def onePixelImg (c : RGBA) : Img :=
  ⟨0, 1, 0, 1, fun _ _ => c⟩

/-- A 3×1 image whose pixels share the RGB value (1,1,1) and differ only in
alpha (0, 1, 2): three distinct `color.RGBA` values with identical
channel statistics. -/
def imgSameRGB : Img :=
  ⟨0, 3, 0, 1, fun x _ => ⟨1, 1, 1, x.toNat⟩⟩

/-- A 2×1 image of one constant color. -/
def imgTwoPixel : Img :=
  ⟨0, 2, 0, 1, fun _ _ => ⟨3, 4, 5, 255⟩⟩

/-- A quantizer whose weighting function returns `2^31 + 1` for every
pixel (a legal `uint32` value). -/
def qHeavy : MedianCutQuantizer :=
  ⟨AggregationType.Mode, some fun _ _ _ => 2147483649, false⟩

/-! ### Helper lemmas -/

theorem sumP_nil : sumP [] = 0 := rfl

theorem sumP_cons (c : colorPriority) (l : colorBucket) :
    sumP (c :: l) = c.p + sumP l := by
  simp [sumP]

theorem sumP_append (l1 l2 : colorBucket) :
    sumP (l1 ++ l2) = sumP l1 + sumP l2 := by
  simp [sumP]

theorem helper_if_min_le (c m : Nat) : c ≤ if m < c then c else m := by
  split <;> omega

/-! ### Claim theorems -/

/-- C9: every call to `getBucket c` returns a buffer of length exactly `c`
whose entries are all the zero `colorPriority`, both when a released
buffer of backing capacity ≥ c is reused (trimmed and cleared) and when a
fresh buffer is allocated at the pool-tracked high-water-mark size. -/
theorem C9_getBucket_zeroed (pool : bucketPool)
    (got : Option (List colorPriority)) (c : Nat) :
    (getBucket pool got c).1 = List.replicate c colorPriority.zero := by
  unfold getBucket
  have hm2 := helper_if_min_le c
    (if pool.maxCap > c then pool.maxCap * 99 / 100 else pool.maxCap)
  cases got with
  | none =>
    simp only
    rw [List.take_replicate, Nat.min_eq_left hm2]
  | some backing =>
    simp only
    split
    · rw [List.take_replicate, Nat.min_eq_left hm2]
    · rename_i hlen
      rw [List.eq_replicate_iff]
      constructor
      · simp
        omega
      · intro b hb
        rw [List.mem_map] at hb
        obtain ⟨a, _, hab⟩ := hb
        exact hab.symm

/-- C10: every palette entry produced by `Mean` reduction is fully opaque:
`colorBucket.mean` fixes the alpha channel at 255 whenever it returns a
color (the bucket's total weight is nonzero), regardless of the alpha
values of the members. -/
theorem C10_mean_opaque (cb : colorBucket) (col : RGBA)
    (h : mean cb = some col) : col.a = 255 := by
  simp only [mean] at h
  split at h
  · exact absurd h (by simp)
  · rw [Option.some.injEq] at h
    subst h
    rfl

/-- Witness for C10 at a bucket whose single member has alpha 0. -/
theorem C10_mean_opaque_witness : RGBA.a ⟨10, 20, 30, 255⟩ = 255 :=
  C10_mean_opaque [⟨1, ⟨10, 20, 30, 0⟩⟩] ⟨10, 20, 30, 255⟩ (by decide)

theorem spanAxis_ite (cb : colorBucket) :
    spanAxis cb =
      if (bucketSpans cb).1 > (bucketSpans cb).2.1 ∧
          (bucketSpans cb).1 > (bucketSpans cb).2.2 then colorAxis.red
      else if (bucketSpans cb).2.1 > (bucketSpans cb).2.2 then colorAxis.green
      else colorAxis.blue := by
  unfold spanAxis span bucketSpans
  dsimp only
  split_ifs <;> rfl

/-- C5 counterexample: on the 3-member bucket {(0,0,0), (3,3,0), (5,5,0)},
each of weight 1, the red and green span widths tie at 5 (blue is 0);
the code's `span` chooses green, while the claim's tie rule (red wins
any tie it is part of) demands red. -/
theorem C5_counterexample :
    ([⟨1, ⟨0, 0, 0, 255⟩⟩, ⟨1, ⟨3, 3, 0, 255⟩⟩, ⟨1, ⟨5, 5, 0, 255⟩⟩] :
      colorBucket).length = 3 ∧
    spanAxis [⟨1, ⟨0, 0, 0, 255⟩⟩, ⟨1, ⟨3, 3, 0, 255⟩⟩,
        ⟨1, ⟨5, 5, 0, 255⟩⟩] = colorAxis.green ∧
    specTieAxis
        (bucketSpans [⟨1, ⟨0, 0, 0, 255⟩⟩, ⟨1, ⟨3, 3, 0, 255⟩⟩,
          ⟨1, ⟨5, 5, 0, 255⟩⟩]).1
        (bucketSpans [⟨1, ⟨0, 0, 0, 255⟩⟩, ⟨1, ⟨3, 3, 0, 255⟩⟩,
          ⟨1, ⟨5, 5, 0, 255⟩⟩]).2.1
        (bucketSpans [⟨1, ⟨0, 0, 0, 255⟩⟩, ⟨1, ⟨3, 3, 0, 255⟩⟩,
          ⟨1, ⟨5, 5, 0, 255⟩⟩]).2.2 =
      colorAxis.red ∧
    colorAxis.green ≠ colorAxis.red := by
  refine ⟨by decide, ?_, by decide, by decide⟩
  rw [spanAxis_ite]
  decide

/-- C5 amended: the splitting axis chosen by `span` always attains the
greatest span width (max − min) among the three channels, but equal
maxima resolve to the LAST channel in R, G, B order (blue wins any tie it
is part of, green beats red on a red/green tie), not to red. -/
theorem C5_amended (cb : colorBucket) :
    spanAxis cb = lastMaxAxis (bucketSpans cb).1 (bucketSpans cb).2.1
        (bucketSpans cb).2.2 ∧
    axisSpanOf cb (spanAxis cb) ≥ (bucketSpans cb).1 ∧
    axisSpanOf cb (spanAxis cb) ≥ (bucketSpans cb).2.1 ∧
    axisSpanOf cb (spanAxis cb) ≥ (bucketSpans cb).2.2 := by
  rw [spanAxis_ite]
  set r := (bucketSpans cb).1 with hr
  set g := (bucketSpans cb).2.1 with hg
  set b := (bucketSpans cb).2.2 with hb
  unfold lastMaxAxis
  have hred : axisSpanOf cb colorAxis.red = (bucketSpans cb).1 := rfl
  have hgreen : axisSpanOf cb colorAxis.green = (bucketSpans cb).2.1 := rfl
  have hblue : axisSpanOf cb colorAxis.blue = (bucketSpans cb).2.2 := rfl
  by_cases h1 : r > g ∧ r > b
  · rw [if_pos h1, if_neg (by omega : ¬(b ≥ r ∧ b ≥ g)), if_neg (by omega : ¬g ≥ r)]
    rw [hred]
    exact ⟨rfl, by omega, by omega, by omega⟩
  · rw [if_neg h1]
    have hd := not_and_or.mp h1
    by_cases h2 : g > b
    · have hgr : g ≥ r := by rcases hd with h | h <;> omega
      rw [if_pos h2, if_neg (by omega : ¬(b ≥ r ∧ b ≥ g)), if_pos hgr]
      rw [hgreen]
      exact ⟨rfl, by omega, by omega, by omega⟩
    · have hbr : b ≥ r := by rcases hd with h | h <;> omega
      rw [if_neg h2, if_pos (⟨hbr, by omega⟩ : b ≥ r ∧ b ≥ g)]
      rw [hblue]
      exact ⟨rfl, by omega, by omega, by omega⟩

theorem findLeft_some (cb : colorBucket) (mean : Nat) (sp : colorAxis) :
    ∀ budget i l, findLeft cb mean sp budget i = some l →
      i ≤ l ∧ l < i + budget ∧
      gt mean (cb.getD l colorPriority.zero).rgba sp = false := by
  intro budget
  induction budget with
  | zero =>
    intro i l h
    exact absurd h (by simp [findLeft])
  | succ k ih =>
    intro i l h
    unfold findLeft at h
    split at h
    · have := ih (i + 1) l h
      exact ⟨by omega, by omega, this.2.2⟩
    · rw [Option.some.injEq] at h
      subst h
      rename_i hgt
      exact ⟨Nat.le_refl _, by omega, by simpa using hgt⟩

theorem findRight_some (cb : colorBucket) (mean : Nat) (sp : colorAxis) :
    ∀ i r, findRight cb mean sp i = some r →
      r ≤ i ∧ gt mean (cb.getD r colorPriority.zero).rgba sp = true := by
  intro i
  induction i with
  | zero =>
    intro r h
    unfold findRight at h
    split at h
    · rw [Option.some.injEq] at h
      subst h
      exact ⟨Nat.le_refl _, by assumption⟩
    · exact absurd h (by simp)
  | succ j ih =>
    intro r h
    unfold findRight at h
    split at h
    · rw [Option.some.injEq] at h
      subst h
      exact ⟨Nat.le_refl _, by assumption⟩
    · have := ih r h
      exact ⟨by omega, this.2⟩

theorem swapAt_length (cb : colorBucket) (i j : Nat) :
    (swapAt cb i j).length = cb.length := by
  simp [swapAt]

theorem sumP_set :
    ∀ (l : colorBucket) (k : Nat) (v : colorPriority), k < l.length →
      sumP (l.set k v) + (l.getD k colorPriority.zero).p = sumP l + v.p := by
  intro l
  induction l with
  | nil => intro k v h; simp at h
  | cons a t ih =>
    intro k v h
    cases k with
    | zero =>
      simp only [List.set_cons_zero, List.getD_cons_zero, sumP_cons]
      omega
    | succ k2 =>
      simp only [List.set_cons_succ, List.getD_cons_succ, sumP_cons]
      have := ih k2 v (by simpa using h)
      omega

theorem sumP_swapAt (l : colorBucket) (i j : Nat) (hi : i < l.length)
    (hj : j < l.length) : sumP (swapAt l i j) = sumP l := by
  unfold swapAt
  have h1 := sumP_set l i (l.getD j colorPriority.zero) hi
  have h2 := sumP_set (l.set i (l.getD j colorPriority.zero)) j
    (l.getD i colorPriority.zero) (by simpa using hj)
  by_cases hij : i = j
  · subst hij
    have he : (l.set i (l.getD i colorPriority.zero)).getD i colorPriority.zero =
        l.getD i colorPriority.zero := by
      rw [List.getD_eq_getElem _ _ (by simpa using hi)]
      rw [List.getElem_set_self]
    rw [he] at h2
    omega
  · have he : (l.set i (l.getD j colorPriority.zero)).getD j colorPriority.zero =
        l.getD j colorPriority.zero := by
      rw [List.getD_eq_getElem _ _ (by simpa using hj)]
      rw [List.getElem_set_ne hij]
      exact (List.getD_eq_getElem _ _ hj).symm
    rw [he] at h2
    omega

theorem partitionLoop_some (mean : Nat) (sp : colorAxis) :
    ∀ fuel cb left right cb2 fin,
      partitionLoop mean sp fuel cb left right = some (cb2, fin) →
      left < right → right < cb.length →
      1 ≤ fin ∧ fin < cb.length ∧ cb2.length = cb.length ∧
        sumP cb2 = sumP cb := by
  intro fuel
  induction fuel with
  | zero =>
    intro cb left right cb2 fin h hlr hrlen
    unfold partitionLoop at h
    rw [if_pos hlr] at h
    exact absurd h (by simp)
  | succ f ih =>
    intro cb left right cb2 fin h hlr hrlen
    unfold partitionLoop at h
    rw [if_pos hlr] at h
    rw [Option.bind_eq_some] at h
    obtain ⟨l, hfl, h⟩ := h
    rw [Option.bind_eq_some] at h
    obtain ⟨r, hfr, h⟩ := h
    have Hl := findLeft_some cb mean sp (cb.length - left) left l hfl
    have Hr := findRight_some cb mean sp right r hfr
    have hlcb : l < cb.length := by omega
    have hrless : r < cb.length := lt_of_le_of_lt Hr.1 hrlen
    have hswlen : (swapAt cb l r).length = cb.length := swapAt_length cb l r
    have hswsum : sumP (swapAt cb l r) = sumP cb :=
      sumP_swapAt cb l r hlcb hrless
    by_cases hlr2 : l < r
    · have H2 := ih (swapAt cb l r) l r cb2 fin h hlr2 (by omega)
      refine ⟨H2.1, by omega, by omega, by rw [H2.2.2.2, hswsum]⟩
    · unfold partitionLoop at h
      rw [if_neg hlr2] at h
      rw [Option.some.injEq, Prod.mk.injEq] at h
      obtain ⟨hcb2, hfin⟩ := h
      subst hcb2
      subst hfin
      have hl1 : 1 ≤ l := by
        rcases Nat.eq_zero_or_pos l with hl0 | hl0
        · exfalso
          have hr0 : r = 0 := by omega
          have hgf := Hl.2.2
          have hgt := Hr.2
          rw [hl0] at hgf
          rw [hr0] at hgt
          rw [hgf] at hgt
          exact absurd hgt (by simp)
        · exact hl0
      exact ⟨hl1, hlcb, hswlen, hswsum⟩

theorem partition_some (cb l r : colorBucket)
    (h : partition cb = some (l, r)) (hlen : 3 ≤ cb.length) :
    l ≠ [] ∧ r ≠ [] ∧ sumP l + sumP r = sumP cb := by
  unfold partition at h
  rw [Option.map_eq_some'] at h
  obtain ⟨⟨cb2, fin⟩, hloop, hpair⟩ := h
  have H := partitionLoop_some _ _ _ _ _ _ _ _ hloop (by omega) (by omega)
  rw [Prod.mk.injEq] at hpair
  obtain ⟨hl, hr⟩ := hpair
  subst hl
  subst hr
  refine ⟨?_, ?_, ?_⟩
  · have : (cb2.take fin).length = fin := by
      rw [List.length_take]
      omega
    intro hnil
    rw [hnil] at this
    simp at this
    omega
  · have : (cb2.drop fin).length = cb2.length - fin := List.length_drop _ _
    intro hnil
    rw [hnil] at this
    simp at this
    omega
  · rw [← sumP_append, List.take_append_drop, H.2.2.2]

theorem bucketizeLoop_singleton_mem :
    ∀ fuel queue num n res, bucketizeLoop fuel queue num n = some res →
      ∀ b, b ∈ queue → b.length ≤ 1 → b ∈ res := by
  intro fuel
  induction fuel with
  | zero =>
    intro queue num n res h b hb hlen
    unfold bucketizeLoop at h
    split at h
    · exact absurd h (by simp)
    · rw [Option.some.injEq] at h
      subst h
      exact hb
  | succ f ih =>
    intro queue num n res h b hb hlen
    cases queue with
    | nil => cases hb
    | cons bucket rest =>
      unfold bucketizeLoop at h
      split at h
      · by_cases hlt : bucket.length < 2
        · rw [if_pos hlt] at h
          rcases List.mem_cons.mp hb with rfl | hbr
          · exact ih _ _ _ _ h b (by simp) hlen
          · exact ih _ _ _ _ h b (by simp [hbr]) hlen
        · rw [if_neg hlt] at h
          by_cases heq2 : bucket.length = 2
          · rw [if_pos heq2] at h
            rcases List.mem_cons.mp hb with rfl | hbr
            · omega
            · exact ih _ _ _ _ h b (by simp [hbr]) hlen
          · rw [if_neg heq2] at h
            rw [Option.bind_eq_some] at h
            obtain ⟨lr, hp, h⟩ := h
            rcases List.mem_cons.mp hb with rfl | hbr
            · omega
            · exact ih _ _ _ _ h b (by simp [hbr]) hlen
      · rw [Option.some.injEq] at h
        subst h
        exact hb

/-- C8: a dequeued bucket with at most one member is never split by
`bucketize`: the step re-enqueues it unchanged at the back of the FIFO,
and such a bucket is delivered to synthesis exactly as it entered the
queue. -/
theorem C8_singleton_passthrough (fuel num n : Nat) (b : colorBucket)
    (rest : List colorBucket) (hb : b.length ≤ 1) :
    ((b :: rest).length < num → (b :: rest).length < n →
      bucketizeLoop (fuel + 1) (b :: rest) num n =
        bucketizeLoop fuel (rest ++ [b]) num n) ∧
    ∀ res, bucketizeLoop fuel (b :: rest) num n = some res → b ∈ res := by
  constructor
  · intro h1 h2
    conv_lhs => rw [bucketizeLoop]
    rw [if_pos ⟨h1, h2⟩]
    rw [if_pos (by omega : b.length < 2)]
  · intro res h
    exact bucketizeLoop_singleton_mem fuel _ num n res h b (by simp) hb

/-- Witness for C8: a singleton bucket survives a run of the queue loop
unchanged. -/
theorem C8_singleton_passthrough_witness :
    [(⟨1, ⟨0, 0, 0, 255⟩⟩ : colorPriority)] ∈
      [[(⟨1, ⟨0, 0, 0, 255⟩⟩ : colorPriority)],
       [(⟨1, ⟨7, 7, 7, 255⟩⟩ : colorPriority)],
       [(⟨2, ⟨9, 9, 9, 255⟩⟩ : colorPriority)]] := by
  refine (C8_singleton_passthrough 5 3 3 [⟨1, ⟨0, 0, 0, 255⟩⟩]
    [[⟨1, ⟨7, 7, 7, 255⟩⟩, ⟨2, ⟨9, 9, 9, 255⟩⟩]] (by decide)).2
    _ ?_
  decide

theorem bucketizeLoop_invariant :
    ∀ fuel queue num n res, bucketizeLoop fuel queue num n = some res →
      (∀ b, b ∈ queue → b ≠ []) →
      (∀ b, b ∈ res → b ≠ []) ∧
        ((res.map sumP).sum = (queue.map sumP).sum) := by
  intro fuel
  induction fuel with
  | zero =>
    intro queue num n res h hne
    unfold bucketizeLoop at h
    split at h
    · exact absurd h (by simp)
    · rw [Option.some.injEq] at h
      subst h
      exact ⟨hne, rfl⟩
  | succ f ih =>
    intro queue num n res h hne
    cases queue with
    | nil =>
      unfold bucketizeLoop at h
      split at h
      · exact absurd h (by simp)
      · rw [Option.some.injEq] at h
        subst h
        exact ⟨hne, rfl⟩
    | cons bucket rest =>
      have hbne : bucket ≠ [] := hne bucket (by simp)
      have hrne : ∀ b, b ∈ rest → b ≠ [] := fun b hb => hne b (by simp [hb])
      unfold bucketizeLoop at h
      split at h
      · by_cases hlt : bucket.length < 2
        · rw [if_pos hlt] at h
          have H := ih _ _ _ _ h (by
            intro b hb
            rcases List.mem_append.mp hb with hb | hb
            · exact hrne b hb
            · rw [List.mem_singleton.mp hb]; exact hbne)
          refine ⟨H.1, ?_⟩
          rw [H.2]
          simp only [List.map_append, List.map_cons, List.map_nil,
            List.sum_append, List.sum_cons, List.sum_nil]
          rw [Nat.add_zero]
          exact Nat.add_comm _ _
        · rw [if_neg hlt] at h
          by_cases heq2 : bucket.length = 2
          · rw [if_pos heq2] at h
            have H := ih _ _ _ _ h (by
              intro b hb
              rcases List.mem_append.mp hb with hb | hb
              · exact hrne b hb
              · rcases List.mem_cons.mp hb with rfl | hb
                · apply List.ne_nil_of_length_pos
                  rw [List.length_take, heq2]
                  decide
                · rw [List.mem_singleton.mp hb]
                  apply List.ne_nil_of_length_pos
                  rw [List.length_drop, heq2]
                  decide)
            refine ⟨H.1, ?_⟩
            rw [H.2]
            have hsplit : sumP (bucket.take 1) + sumP (bucket.drop 1) =
                sumP bucket := by
              rw [← sumP_append, List.take_append_drop]
            simp only [List.map_append, List.map_cons, List.map_nil,
              List.sum_append, List.sum_cons, List.sum_nil]
            rw [Nat.add_zero, ← hsplit]
            ring
          · rw [if_neg heq2] at h
            rw [Option.bind_eq_some] at h
            obtain ⟨lr, hp, h⟩ := h
            have hlen3 : 3 ≤ bucket.length := by omega
            obtain ⟨hl, hr, hsum⟩ := partition_some bucket lr.1 lr.2 (by
              rw [hp]) hlen3
            have H := ih _ _ _ _ h (by
              intro b hb
              rcases List.mem_append.mp hb with hb | hb
              · exact hrne b hb
              · rcases List.mem_cons.mp hb with rfl | hb
                · exact hl
                · rw [List.mem_singleton.mp hb]; exact hr)
            refine ⟨H.1, ?_⟩
            rw [H.2]
            simp only [List.map_append, List.map_cons, List.map_nil,
              List.sum_append, List.sum_cons, List.sum_nil]
            rw [Nat.add_zero, ← hsum]
            ring
      · rw [Option.some.injEq] at h
        subst h
        exact ⟨hne, rfl⟩

/-- C6: every bucket delivered by `bucketize` to `palettize` has at least
one member, for every non-empty aggregated color list and positive target
bucket count. -/
theorem C6_buckets_nonempty (colors : colorBucket) (num : Int)
    (bs : List colorBucket) (hne : colors ≠ []) (_hnum : 1 ≤ num)
    (h : bucketize colors num = some bs) : ∀ b, b ∈ bs → b ≠ [] := by
  unfold bucketize at h
  split at h
  · rw [Option.some.injEq] at h
    subst h
    intro b hb
    cases hb
  · split at h
    · exact absurd h (by simp)
    · intro b hb
      exact (bucketizeLoop_invariant _ _ _ _ _ h (by
        intro b2 hb2
        rw [List.mem_singleton.mp hb2]
        exact hne)).1 b hb

/-- Witness for C6 on a two-color list split to capacity 2, at the first
delivered bucket. -/
theorem C6_buckets_nonempty_witness :
    [(⟨2, ⟨0, 0, 0, 255⟩⟩ : colorPriority)] ≠ [] :=
  C6_buckets_nonempty [⟨2, ⟨0, 0, 0, 255⟩⟩, ⟨2, ⟨255, 255, 255, 255⟩⟩] 2
    [[⟨2, ⟨0, 0, 0, 255⟩⟩], [⟨2, ⟨255, 255, 255, 255⟩⟩]]
    (by decide) (by decide) (by decide) [⟨2, ⟨0, 0, 0, 255⟩⟩] (by decide)

theorem bucketizeLoop_length :
    ∀ fuel queue num n res, bucketizeLoop fuel queue num n = some res →
      queue.length ≤ num → res.length ≤ num := by
  intro fuel
  induction fuel with
  | zero =>
    intro queue num n res h hq
    unfold bucketizeLoop at h
    split at h
    · exact absurd h (by simp)
    · rw [Option.some.injEq] at h
      subst h
      exact hq
  | succ f ih =>
    intro queue num n res h hq
    cases queue with
    | nil =>
      unfold bucketizeLoop at h
      split at h
      · exact absurd h (by simp)
      · rw [Option.some.injEq] at h
        subst h
        exact hq
    | cons bucket rest =>
      unfold bucketizeLoop at h
      split at h
      · rename_i hguard
        by_cases hlt : bucket.length < 2
        · rw [if_pos hlt] at h
          refine ih _ _ _ _ h ?_
          simp only [List.length_append, List.length_cons, List.length_nil] at *
          omega
        · rw [if_neg hlt] at h
          by_cases heq2 : bucket.length = 2
          · rw [if_pos heq2] at h
            refine ih _ _ _ _ h ?_
            simp only [List.length_append, List.length_cons,
              List.length_nil] at *
            omega
          · rw [if_neg heq2] at h
            rw [Option.bind_eq_some] at h
            obtain ⟨lr, hp, h⟩ := h
            refine ih _ _ _ _ h ?_
            simp only [List.length_append, List.length_cons,
              List.length_nil] at *
            omega
      · rw [Option.some.injEq] at h
        subst h
        exact hq

theorem bucketize_length_le (colors : colorBucket) (num : Int)
    (bs : List colorBucket) (h : bucketize colors num = some bs) :
    bs.length = 0 ∨ (1 ≤ num ∧ (bs.length : Int) ≤ num) := by
  unfold bucketize at h
  split at h
  · rw [Option.some.injEq] at h
    subst h
    exact Or.inl rfl
  · split at h
    · exact absurd h (by simp)
    · rename_i h1 h2
      right
      refine ⟨by omega, ?_⟩
      have hlen := bucketizeLoop_length _ _ _ _ _ h
        (by simp only [List.length_cons, List.length_nil]; omega)
      omega

theorem palettize_length (agg : AggregationType) :
    ∀ (bs : List colorBucket) (p res : List RGBA),
      palettize agg p bs = some res → res.length = p.length + bs.length := by
  intro bs
  induction bs with
  | nil =>
    intro p res h
    unfold palettize at h
    rw [Option.some.injEq] at h
    subst h
    simp
  | cons b rest ih =>
    intro p res h
    unfold palettize at h
    cases agg with
    | Mean =>
      rw [Option.bind_eq_some] at h
      obtain ⟨m, hm, h⟩ := h
      have := ih (p ++ [m]) res h
      simp only [List.length_append, List.length_cons, List.length_nil] at *
      omega
    | Mode =>
      have := ih _ res h
      simp only [List.length_append, List.length_cons, List.length_nil] at *
      omega

/-- C1 counterexample: a full palette (`cap(p) = len(p) = 1`, requested
capacity 0) holding an opaque color, with `AddTransparent` set and no
aggregated colors, still receives a transparent entry: the extension has
length 1, exceeding the requested capacity 0. -/
theorem C1_counterexample :
    quantizeSlice ⟨AggregationType.Mode, none, true⟩ 1 [⟨9, 9, 9, 255⟩] [] =
      some [⟨9, 9, 9, 255⟩, transparentRGBA] ∧
    ¬((2 : Nat) - 1 ≤ 1 - 1) := by
  exact ⟨by decide, by decide⟩

/-- C1 amended: whenever `quantizeSlice` completes (no panic) and the
requested capacity `cap(p) - len(p)` is at least 1, the extension length
is at most the requested capacity, a transparent entry counting against
that capacity.  (With requested capacity 0 and `AddTransparent` set the
code instead appends a transparent entry beyond capacity, or panics in
`make` when colors are present.) -/
theorem C1_amended (q : MedianCutQuantizer) (capTotal : Nat) (p : List RGBA)
    (colors : colorBucket) (res : List RGBA)
    (hcap : p.length < capTotal)
    (h : quantizeSlice q capTotal p colors = some res) :
    res.length - p.length ≤ capTotal - p.length := by
  simp only [quantizeSlice] at h
  rw [Option.bind_eq_some] at h
  obtain ⟨buckets, hb, h⟩ := h
  rw [Option.map_eq_some'] at h
  obtain ⟨p2, hp2, hres⟩ := h
  have hplen := palettize_length q.aggregation buckets p p2 hp2
  cases hA : (q.addTransparent && !hasTransparent p) with
  | false =>
    rw [hA] at hb hres
    simp only [Bool.false_eq_true, if_false] at hb hres
    subst hres
    have hd := bucketize_length_le colors _ buckets hb
    rcases hd with h0 | ⟨h1, h2⟩ <;> omega
  | true =>
    rw [hA] at hb hres
    simp only [if_true] at hb hres
    subst hres
    have hd := bucketize_length_le colors _ buckets hb
    simp only [List.length_append, List.length_cons, List.length_nil]
    rcases hd with h0 | ⟨h1, h2⟩ <;> omega

/-- Witness for C1 amended: two colors into capacity 2 from an empty
palette. -/
theorem C1_amended_witness :
    ([⟨0, 0, 0, 255⟩, ⟨255, 255, 255, 255⟩] : List RGBA).length -
        ([] : List RGBA).length ≤ 2 - ([] : List RGBA).length :=
  C1_amended qMode 2 [] [⟨2, ⟨0, 0, 0, 255⟩⟩, ⟨2, ⟨255, 255, 255, 255⟩⟩] _
    (by decide) (by decide)

/-- C3 (code bug): three aggregated colors share RGB (1,1,1) and differ
only in alpha, so every channel span is 0; with capacity 3 (≥ the number
of distinct aggregated colors) `bucketize` must split the 3-bucket, and
`partition`'s right scan runs below index 0 — a Go index-out-of-range
panic — so no palette is produced at all, let alone one holding every
distinct color exactly once. -/
theorem C3_bug :
    buildBucketMultiple 10 qMode [imgSameRGB] =
      some [⟨1, ⟨1, 1, 1, 2⟩⟩, ⟨1, ⟨1, 1, 1, 0⟩⟩, ⟨1, ⟨1, 1, 1, 1⟩⟩] ∧
    Quantize 10 qMode 3 [] imgSameRGB = none := by
  exact ⟨by decide, by decide⟩

theorem probeLoop_blocked :
    ∀ fuel idx i pr,
      probeInsert fuel [⟨1, ⟨0, 0, 2, 255⟩⟩, ⟨1, ⟨0, 0, 1, 255⟩⟩] 2 idx i
        ⟨0, 0, 3, 255⟩ pr = none := by
  intro fuel
  induction fuel with
  | zero => intro idx i pr; rfl
  | succ f ih =>
    intro idx i pr
    unfold probeInsert
    rcases Nat.mod_two_eq_zero_or_one idx with h | h <;> simp [h, ih]

/-- C2 (code bug): `buildBucketMultiple` sizes its probe table from the
union bounding box, not the combined pixel count.  Three 1×1 images at
the same coordinates with three distinct colors give a table of size 2;
after the first two colors fill both slots, the probe loop for the third
color never finds an empty or matching slot: the aggregation loop does
not terminate (no fuel suffices). -/
theorem C2_bug :
    ∀ fuel, buildBucketMultiple fuel qMode
      [onePixelImg ⟨0, 0, 1, 255⟩, onePixelImg ⟨0, 0, 2, 255⟩,
        onePixelImg ⟨0, 0, 3, 255⟩] = none := by
  intro fuel
  have scanBlocked : ∀ f2, scanImage f2 qMode 2 (onePixelImg ⟨0, 0, 3, 255⟩)
      [⟨1, ⟨0, 0, 2, 255⟩⟩, ⟨1, ⟨0, 0, 1, 255⟩⟩] = none := by
    intro f2
    have e2 : scanImage f2 qMode 2 (onePixelImg ⟨0, 0, 3, 255⟩)
        [⟨1, ⟨0, 0, 2, 255⟩⟩, ⟨1, ⟨0, 0, 1, 255⟩⟩] =
        ((probeInsert f2 [⟨1, ⟨0, 0, 2, 255⟩⟩, ⟨1, ⟨0, 0, 1, 255⟩⟩] 2 3 1
            ⟨0, 0, 3, 255⟩ 1).bind fun t => some t).bind fun t => some t := rfl
    rw [e2, probeLoop_blocked]
    rfl
  cases fuel with
  | zero => rfl
  | succ f =>
    have e1 : buildBucketMultiple (f + 1) qMode
        [onePixelImg ⟨0, 0, 1, 255⟩, onePixelImg ⟨0, 0, 2, 255⟩,
          onePixelImg ⟨0, 0, 3, 255⟩] =
        ((scanImage (f + 1) qMode 2 (onePixelImg ⟨0, 0, 3, 255⟩)
            [⟨1, ⟨0, 0, 2, 255⟩⟩, ⟨1, ⟨0, 0, 1, 255⟩⟩]).bind fun t => some t).map
          (fun tab => tab.filter fun s => s.p ≠ 0) := rfl
    rw [e1, scanBlocked]
    rfl

theorem foldlM_of_id {α σ : Type} (f : σ → α → Option σ) :
    ∀ (l : List α), (∀ s a, a ∈ l → f s a = some s) →
      ∀ s, List.foldlM f s l = some s := by
  intro l
  induction l with
  | nil => intro _ s; rfl
  | cons a t ih =>
    intro h s
    have e : List.foldlM f s (a :: t) =
        (f s a).bind fun s2 => List.foldlM f s2 t := rfl
    rw [e, h s a (by simp)]
    exact ih (fun s2 a2 ha2 => h s2 a2 (by simp [ha2])) s

theorem filter_replicate_zero (n : Nat) :
    (List.replicate n colorPriority.zero).filter (fun s => s.p ≠ 0) = [] := by
  induction n with
  | zero => rfl
  | succ k ih =>
    rw [List.replicate_succ, List.filter_cons]
    simp only [colorPriority.zero, ne_eq, decide_not]
    simpa using ih

theorem foldl_if_min_le (g : Img → Int) :
    ∀ (ms : List Img) (init : Int),
      (ms.foldl (fun acc m => if g m < acc then g m else acc) init ≤ init) ∧
      ∀ m, m ∈ ms →
        ms.foldl (fun acc m => if g m < acc then g m else acc) init ≤ g m := by
  intro ms
  induction ms with
  | nil => exact fun init => ⟨le_refl _, fun m hm => absurd hm (by simp)⟩
  | cons m0 t ih =>
    intro init
    have e : (m0 :: t).foldl (fun acc m => if g m < acc then g m else acc) init =
        t.foldl (fun acc m => if g m < acc then g m else acc)
          (if g m0 < init then g m0 else init) := rfl
    rw [e]
    constructor
    · have := (ih (if g m0 < init then g m0 else init)).1
      have hle : (if g m0 < init then g m0 else init) ≤ init := by
        split <;> omega
      omega
    · intro m hm
      rcases List.mem_cons.mp hm with rfl | hm
      · have := (ih (if g m < init then g m else init)).1
        have hle : (if g m < init then g m else init) ≤ g m := by
          split <;> omega
        omega
      · exact (ih _).2 m hm

theorem foldl_if_max_ge (g : Img → Int) :
    ∀ (ms : List Img) (init : Int),
      (init ≤ ms.foldl (fun acc m => if g m > acc then g m else acc) init) ∧
      ∀ m, m ∈ ms →
        g m ≤ ms.foldl (fun acc m => if g m > acc then g m else acc) init := by
  intro ms
  induction ms with
  | nil => exact fun init => ⟨le_refl _, fun m hm => absurd hm (by simp)⟩
  | cons m0 t ih =>
    intro init
    have e : (m0 :: t).foldl (fun acc m => if g m > acc then g m else acc) init =
        t.foldl (fun acc m => if g m > acc then g m else acc)
          (if g m0 > init then g m0 else init) := rfl
    rw [e]
    constructor
    · have := (ih (if g m0 > init then g m0 else init)).1
      have hle : init ≤ (if g m0 > init then g m0 else init) := by
        split <;> omega
      omega
    · intro m hm
      rcases List.mem_cons.mp hm with rfl | hm
      · have := (ih (if g m > init then g m else init)).1
        have hle : g m ≤ (if g m > init then g m else init) := by
          split <;> omega
        omega
      · exact (ih _).2 m hm

/-- C7: if the weighting function returns 0 for every pixel, the
aggregated color list is empty and the output palette is the caller's
palette unchanged, except that a transparent entry is appended when
requested and the palette holds no fully-transparent entry already. -/
theorem C7_zero_weighting (fuel capTotal : Nat) (q : MedianCutQuantizer)
    (w : Img → Int → Int → Nat) (p : List RGBA) (ms : List Img)
    (hq : q.weighting = some w) (hw : ∀ m x y, w m x y = 0)
    (hwf : ∀ m, m ∈ ms → m.wf) :
    QuantizeMultiple fuel q capTotal p ms =
      some (if q.addTransparent && !hasTransparent p then
        p ++ [transparentRGBA] else p) := by
  have hbuild : buildBucketMultiple fuel q ms = some [] := by
    unfold buildBucketMultiple
    by_cases hms : ms.length < 1
    · rw [if_pos hms]
    · rw [if_neg hms]
      obtain ⟨m0, hm0⟩ : ∃ m0, m0 ∈ ms := by
        cases ms with
        | nil => simp at hms
        | cons m0 t => exact ⟨m0, by simp⟩
      have hminX := (foldl_if_min_le (fun m => m.minX) ms 2147483647).2 m0 hm0
      have hmaxX := (foldl_if_max_ge (fun m => m.maxX) ms 0).2 m0 hm0
      have hminY := (foldl_if_min_le (fun m => m.minY) ms 2147483647).2 m0 hm0
      have hmaxY := (foldl_if_max_ge (fun m => m.maxY) ms 0).2 m0 hm0
      obtain ⟨hwfx, hwfy⟩ := hwf m0 hm0
      rw [if_neg (by
        have hx : (0 : Int) ≤
            ms.foldl (fun acc m => if m.maxX > acc then m.maxX else acc) 0 -
              ms.foldl (fun acc m => if m.minX < acc then m.minX else acc)
                2147483647 := by omega
        have hy : (0 : Int) ≤
            ms.foldl (fun acc m => if m.maxY > acc then m.maxY else acc) 0 -
              ms.foldl (fun acc m => if m.minY < acc then m.minY else acc)
                2147483647 := by omega
        have := mul_nonneg (mul_nonneg hx hy) (by norm_num : (0 : Int) ≤ 2)
        omega)]
      have hscan : ∀ (size : Nat) (tab : List colorPriority) (m : Img),
          scanImage fuel q size m tab = some tab := by
        intro size tab m
        unfold scanImage
        refine foldlM_of_id _ _ ?_ tab
        intro s y hy
        refine foldlM_of_id _ _ ?_ s
        intro s2 x hx
        simp [hq, hw]
      dsimp only
      rw [foldlM_of_id _ ms (fun tab m _ => hscan _ tab m) _]
      rw [Option.map_some']
      rw [filter_replicate_zero]
  unfold QuantizeMultiple
  rw [hbuild]
  rfl

/-- Witness for C7 at a 2×1 image and an all-zero weighting function. -/
theorem C7_zero_weighting_witness :
    QuantizeMultiple 5 ⟨AggregationType.Mode, some fun _ _ _ => 0, true⟩ 4
      [⟨1, 2, 3, 255⟩] [imgTwoPixel] =
      some (if (⟨AggregationType.Mode, some fun _ _ _ => 0, true⟩ :
            MedianCutQuantizer).addTransparent &&
          !hasTransparent [⟨1, 2, 3, 255⟩] then
        [(⟨1, 2, 3, 255⟩ : RGBA)] ++ [transparentRGBA]
      else [(⟨1, 2, 3, 255⟩ : RGBA)]) :=
  C7_zero_weighting 5 4 _ _ _ _ rfl (fun _ _ _ => rfl)
    (by
      intro m hm
      rw [List.mem_singleton.mp hm]
      exact ⟨by decide, by decide⟩)

theorem sumP_filter_ne (l : colorBucket) :
    sumP (l.filter fun s => s.p ≠ 0) = sumP l := by
  induction l with
  | nil => rfl
  | cons a t ih =>
    simp only [ne_eq, decide_not] at ih ⊢
    by_cases ha : a.p = 0
    · simp [List.filter_cons, ha, sumP_cons, ih]
    · simp [List.filter_cons, ha, sumP_cons, ih]

theorem sumP_replicate_zero (n : Nat) :
    sumP (List.replicate n colorPriority.zero) = 0 := by
  induction n with
  | zero => rfl
  | succ k ih =>
    rw [List.replicate_succ, sumP_cons, ih]
    rfl

theorem probeInsert_spec :
    ∀ fuel table size idx i c pr t2,
      probeInsert fuel table size idx i c pr = some t2 →
      table.length = size →
      t2.length = size ∧ sumP t2 % 2 ^ 32 = (sumP table + pr) % 2 ^ 32 := by
  intro fuel
  induction fuel with
  | zero =>
    intro table size idx i c pr t2 h _
    exact absurd h (by simp [probeInsert])
  | succ f ih =>
    intro table size idx i c pr t2 h hlen
    simp only [probeInsert] at h
    split at h
    · exact absurd h (by simp)
    · rename_i hsz
      split at h
      · rw [Option.some.injEq] at h
        subst h
        have hk : idx % size < table.length := by
          rw [hlen]
          exact Nat.mod_lt _ (by omega)
        have hset := sumP_set table (idx % size)
          ⟨((table.getD (idx % size) colorPriority.zero).p + pr) % 2 ^ 32, c⟩ hk
        dsimp only at hset
        refine ⟨by rw [List.length_set]; exact hlen, ?_⟩
        have hM : (2 : Nat) ^ 32 = 4294967296 := by norm_num
        simp only [hM] at hset ⊢
        omega
      · exact ih _ _ _ _ _ _ _ h hlen

theorem foldlM_table_mod {α : Type} (f : List colorPriority → α →
      Option (List colorPriority)) (wt : α → Nat) (sz : Nat)
    (hf : ∀ t a t2, f t a = some t2 → t.length = sz →
      t2.length = sz ∧ sumP t2 % 2 ^ 32 = (sumP t + wt a) % 2 ^ 32) :
    ∀ (l : List α) (t t2 : List colorPriority),
      List.foldlM f t l = some t2 → t.length = sz →
      t2.length = sz ∧ sumP t2 % 2 ^ 32 = (sumP t + (l.map wt).sum) % 2 ^ 32 := by
  intro l
  induction l with
  | nil =>
    intro t t2 h hlen
    rw [show List.foldlM f t [] = some t from rfl, Option.some.injEq] at h
    subst h
    exact ⟨hlen, by simp⟩
  | cons a tail ih =>
    intro t t2 h hlen
    rw [show List.foldlM f t (a :: tail) =
        (f t a).bind fun t1 => List.foldlM f t1 tail from rfl] at h
    rw [Option.bind_eq_some] at h
    obtain ⟨t1, h1, h2⟩ := h
    have H1 := hf t a t1 h1 hlen
    have H2 := ih t1 t2 h2 H1.1
    refine ⟨H2.1, ?_⟩
    simp only [List.map_cons, List.sum_cons]
    have e1 := H1.2
    have e2 := H2.2
    have hM : (2 : Nat) ^ 32 = 4294967296 := by norm_num
    rw [hM] at *
    omega

theorem scanImage_mod (fuel : Nat) (q : MedianCutQuantizer) (size : Nat)
    (m : Img) :
    ∀ t t2, scanImage fuel q size m t = some t2 → t.length = size →
      t2.length = size ∧ sumP t2 % 2 ^ 32 =
        (sumP t + ((intRange m.minY m.maxY).map fun y =>
          ((intRange m.minX m.maxX).map fun x =>
            match q.weighting with
            | none => 1
            | some w => w m x y % 2 ^ 32).sum).sum) % 2 ^ 32 := by
  intro t t2 h hlen
  unfold scanImage at h
  refine foldlM_table_mod _ _ size ?_ _ t t2 h hlen
  intro t3 y t4 h3 hlen3
  refine foldlM_table_mod _ _ size ?_ _ t3 t4 h3 hlen3
  intro t5 x t6 h5 hlen5
  dsimp only at h5
  by_cases hpr : (match q.weighting with
      | none => 1
      | some w => w m x y % 2 ^ 32) = 0
  · rw [if_neg (by simpa using hpr)] at h5
    rw [Option.some.injEq] at h5
    subst h5
    refine ⟨hlen5, ?_⟩
    rw [hpr, Nat.add_zero]
  · rw [if_pos (by simpa using hpr)] at h5
    exact probeInsert_spec _ _ _ _ _ _ _ _ h5 hlen5

set_option maxHeartbeats 1000000 in
theorem scanFold_mod (fuel : Nat) (q : MedianCutQuantizer) (size : Nat)
    (ms : List Img) (t tab : List colorPriority)
    (htab : List.foldlM (fun tb m => scanImage fuel q size m tb) t ms =
      some tab)
    (hlen : t.length = size) :
    sumP tab % 2 ^ 32 = (sumP t + pixelWeightSum q ms) % 2 ^ 32 := by
  have H := foldlM_table_mod (fun tb m => scanImage fuel q size m tb)
    (fun m => ((intRange m.minY m.maxY).map fun y =>
      ((intRange m.minX m.maxX).map fun x =>
        match q.weighting with
        | none => 1
        | some w => w m x y % 2 ^ 32).sum).sum) size
    (fun t3 a t4 ht hl => scanImage_mod fuel q size a t3 t4 ht hl)
    ms t tab htab hlen
  exact H.2

theorem buildBucket_sum_mod (fuel : Nat) (q : MedianCutQuantizer)
    (ms : List Img) (bucket : colorBucket)
    (h : buildBucketMultiple fuel q ms = some bucket) :
    sumP bucket % 2 ^ 32 = pixelWeightSum q ms % 2 ^ 32 := by
  unfold buildBucketMultiple at h
  split at h
  · rename_i hms
    rw [Option.some.injEq] at h
    subst h
    cases ms with
    | nil => rfl
    | cons m0 t => simp at hms
  · dsimp only at h
    split at h
    · exact absurd h (by simp)
    · rw [Option.map_eq_some'] at h
      obtain ⟨tab, htab, hbucket⟩ := h
      have H := scanFold_mod fuel q _ ms _ tab htab (by simp)
      rw [← hbucket, sumP_filter_ne, H, sumP_replicate_zero, Nat.zero_add]

theorem bucketize_sum (colors : colorBucket) (num : Int)
    (bs : List colorBucket) (hnum : num ≠ 0)
    (h : bucketize colors num = some bs) :
    (bs.map sumP).sum = sumP colors := by
  unfold bucketize at h
  split at h
  · rename_i hc
    rw [Option.some.injEq] at h
    subst h
    have hc2 : colors = [] := by
      rcases hc with hc | hc
      · exact List.length_eq_zero.mp hc
      · exact absurd hc hnum
    subst hc2
    rfl
  · split at h
    · exact absurd h (by simp)
    · rename_i h1 h2
      have hne : ∀ b, b ∈ [colors] → b ≠ [] := by
        intro b hb
        rw [List.mem_singleton.mp hb]
        intro hnil
        exact h1 (Or.inl (by rw [hnil]; rfl))
      have H := (bucketizeLoop_invariant _ _ _ _ _ h hne).2
      rw [H]
      simp only [List.map_cons, List.map_nil, List.sum_cons, List.sum_nil]
      omega

/-- C4 counterexample: a 2×1 image of one color with a weighting function
returning the legal `uint32` value `2^31 + 1` per pixel.  The aggregated
weight wraps in `uint32` arithmetic to 2, while the contributing pixel
weights sum to `2^32 + 2`, so the aggregated total does not equal the
pixel total. -/
theorem C4_counterexample :
    buildBucketMultiple 100 qHeavy [imgTwoPixel] =
      some [⟨2, ⟨3, 4, 5, 255⟩⟩] ∧
    sumP [⟨2, ⟨3, 4, 5, 255⟩⟩] = 2 ∧
    pixelWeightSum qHeavy [imgTwoPixel] = 4294967298 ∧
    (2 : Nat) ≠ 4294967298 := by
  exact ⟨by decide, by decide, by decide, by decide⟩

/-- C4 amended: with a nonzero target bucket count, the total weight of
the buckets emitted by `bucketize` equals the total weight of the
aggregated colors exactly; the aggregated total in turn is congruent to
the total weight of all contributing pixels modulo 2^32 (the `uint32`
accumulator wraps), with equality whenever no per-color accumulation
reaches 2^32. -/
theorem C4_amended :
    (∀ (colors : colorBucket) (num : Int) (bs : List colorBucket),
      num ≠ 0 → bucketize colors num = some bs →
      (bs.map sumP).sum = sumP colors) ∧
    (∀ (fuel : Nat) (q : MedianCutQuantizer) (ms : List Img)
      (bucket : colorBucket),
      buildBucketMultiple fuel q ms = some bucket →
      sumP bucket % 2 ^ 32 = pixelWeightSum q ms % 2 ^ 32) :=
  ⟨fun colors num bs hnum h => bucketize_sum colors num bs hnum h,
   fun fuel q ms bucket h => buildBucket_sum_mod fuel q ms bucket h⟩

/-- Witness for C4 amended at a concrete split and a concrete scan. -/
theorem C4_amended_witness :
    (([[⟨2, ⟨0, 0, 0, 255⟩⟩], [⟨2, ⟨255, 255, 255, 255⟩⟩]] :
        List colorBucket).map sumP).sum =
      sumP [⟨2, ⟨0, 0, 0, 255⟩⟩, ⟨2, ⟨255, 255, 255, 255⟩⟩] ∧
    sumP [⟨2, ⟨3, 4, 5, 255⟩⟩] % 2 ^ 32 =
      pixelWeightSum qHeavy [imgTwoPixel] % 2 ^ 32 :=
  ⟨C4_amended.1 [⟨2, ⟨0, 0, 0, 255⟩⟩, ⟨2, ⟨255, 255, 255, 255⟩⟩] 2 _
      (by decide) (by decide),
   C4_amended.2 100 qHeavy [imgTwoPixel] [⟨2, ⟨3, 4, 5, 255⟩⟩] (by decide)⟩

end GoQuantize
